import Mathlib

/-!
Shallow embedding of the port-scan core of `rtoolkit`
(`src/commands/portscan.rs`): the port-range parser, the probe task body,
the result-collection loop of `remote_scan`, the semaphore-bounded dispatch
loop as a transition system, and the option handling of `run_port_scan`.
Rust `String`s are embedded as `List Char`; `u32` values as `Nat` with the
`2 ^ 32` bound enforced where the source's `parse::<u32>()` enforces it.
-/

namespace RToolkit

/-- Whitespace test used by Rust's `str::trim`. -/
def isWS (c : Char) : Bool := c.isWhitespace

/-- `str::trim`: drop whitespace from both ends of the character list. -/
def trimChars (s : List Char) : List Char :=
  ((s.dropWhile isWS).reverse.dropWhile isWS).reverse

/-- `str::split_once(c)`: split at the first occurrence of `c`, if any,
returning the parts before and after that occurrence. -/
def splitOnce (c : Char) : List Char → Option (List Char × List Char)
  | [] => none
  | x :: xs =>
    if x = c then some ([], xs)
    else
      match splitOnce c xs with
      | some (a, b) => some (x :: a, b)
      | none => none

/-- Numeric value of a digit string, most significant digit first. -/
def digitsVal (s : List Char) : Nat :=
  s.foldl (fun acc c => acc * 10 + (c.toNat - 48)) 0

/-- Digit-run acceptance of `str::parse::<u32>()` after the optional sign:
one or more ASCII digits whose value is at most `u32::MAX`; anything else is
a parse error, embedded as `none`. -/
def parseDigits (t : List Char) : Option Nat :=
  if t ≠ [] ∧ t.all Char.isDigit then
    if digitsVal t < 2 ^ 32 then some (digitsVal t) else none
  else none

/-- `str::parse::<u32>()`: an optional leading `+` sign, then one or more
ASCII digits with the value at most `u32::MAX`. -/
def parseU32 (s : List Char) : Option Nat :=
  parseDigits (if s.head? = some '+' then s.tail else s)

/-- `PortScanError` from `portscan.rs`; payloads carry the character data of
the Rust `String`s. -/
inductive PortScanError where
  | InvalidPort (tok : List Char)
  | InvalidPortRange (spec : List Char)
  | RuntimeError (msg : List Char)
  | JoinError (msg : List Char)
deriving DecidableEq, Repr

/-- `parse_port_range` from `portscan.rs`, clause by clause: trim the spec;
if it splits at a `-`, parse both trimmed tokens as `u32` (a failing first
token reports `InvalidPort(a)`, and the source's `map_err` for the second
token also captures `a`), then reject a zero endpoint or an inverted range
with `InvalidPortRange` of the trimmed spec; otherwise the whole trimmed
spec is one port token and a successful parse yields `(port, port)` with no
further validation. -/
def parse_port_range (s : List Char) : Except PortScanError (Nat × Nat) :=
  let t := trimChars s
  match splitOnce '-' t with
  | some (a, b) =>
    match parseU32 (trimChars a) with
    | none => .error (.InvalidPort a)
    | some startPort =>
      match parseU32 (trimChars b) with
      | none => .error (.InvalidPort a)
      | some endPort =>
        if startPort = 0 ∨ endPort = 0 ∨ startPort > endPort then
          .error (.InvalidPortRange t)
        else
          .ok (startPort, endPort)
  | none =>
    match parseU32 t with
    | none => .error (.InvalidPort t)
    | some p => .ok (p, p)

example : parse_port_range "80".data = .ok (80, 80) := by rfl
example : parse_port_range "80-100".data = .ok (80, 100) := by rfl
example : parse_port_range "0-10".data = .error (.InvalidPortRange "0-10".data) := by rfl
example : parse_port_range "100-50".data = .error (.InvalidPortRange "100-50".data) := by rfl
example : parse_port_range "abc".data = .error (.InvalidPort "abc".data) := by rfl
example : parse_port_range "80-".data = .error (.InvalidPort "80".data) := by rfl
example : parse_port_range "80-xyz".data = .error (.InvalidPort "80".data) := by rfl
example : parse_port_range "0".data = .ok (0, 0) := by rfl
example : parse_port_range "70000-80000".data = .ok (70000, 80000) := by rfl
example : parse_port_range " 80-100 ".data = .ok (80, 100) := by rfl
example : parse_port_range "10-20-30".data = .error (.InvalidPort "10".data) := by rfl

/-- Result of joining one spawned probe task in `remote_scan`'s collection
loop: either the task ran to completion and yielded `(port, is_open)`, or
joining it failed (the `Err(e)` arm of the `match` on the join result). -/
inductive JoinOutcome where
  | joined (port : Nat) (is_open : Bool)
  | failed (msg : List Char)
deriving DecidableEq, Repr

/-- Aggregation state of `remote_scan`: `open_ports` in arrival order,
`closed_count`, and `total`, exactly the three accumulators of the source. -/
structure ScanSummary where
  open_ports : List Nat
  closed_count : Nat
  total : Nat
deriving DecidableEq, Repr

/-- One iteration of `remote_scan`'s collection loop: `total` is incremented,
then the join result is matched; an open port is appended to `open_ports`, a
closed one bumps `closed_count`, and a join failure returns
`PortScanError::JoinError` immediately. -/
def collect_step (st : ScanSummary) : JoinOutcome → Except PortScanError ScanSummary
  | .joined p true => .ok ⟨st.open_ports ++ [p], st.closed_count, st.total + 1⟩
  | .joined _ false => .ok ⟨st.open_ports, st.closed_count + 1, st.total + 1⟩
  | .failed e => .error (.JoinError e)

/-- The collection loop of `remote_scan`, folding `collect_step` over the
joined tasks in arrival order and stopping at the first failure. -/
def collect : List JoinOutcome → ScanSummary → Except PortScanError ScanSummary
  | [], st => .ok st
  | r :: rs, st =>
    match collect_step st r with
    | .ok st2 => collect rs st2
    | .error e => .error e

/-- Initial accumulator of `remote_scan`: empty open list, zero counts. -/
def initSummary : ScanSummary := ⟨[], 0, 0⟩

/-- Ports dispatched by `remote_scan`'s loop `for port in start..=stop`. -/
def scan_ports (startPort endPort : Nat) : List Nat :=
  List.range' startPort (endPort + 1 - startPort)

/-- The I/O errors `TcpStream::connect` can report before the deadline:
an actively refused connection, an unreachable host, or any other error. -/
inductive ConnError where
  | refused
  | unreachable
  | other (msg : List Char)
deriving DecidableEq, Repr

/-- Result of racing `TcpStream::connect` against `timeout(to, ...)`: the
attempt completed before the deadline (with a stream, embedded as `Unit`, or
an I/O error), or the deadline elapsed first. -/
inductive RaceResult where
  | completed (r : Except ConnError Unit)
  | elapsed
deriving Repr

/-- Body of one spawned probe task in `remote_scan`: `is_open` is `true` on
`Ok(Ok(_stream))` and `false` on every other arm, and the task always yields
the pair `(port, is_open)`. -/
def probe_task (port : Nat) (race : RaceResult) : Nat × Bool :=
  match race with
  | .completed (.ok _) => (port, true)
  | _ => (port, false)

/-- State of `remote_scan`'s dispatch loop and its semaphore: free permits in
the semaphore, spawned tasks still holding a permit, ports dispatched so far,
whether the semaphore has been closed, and whether the
`expect("semaphore acquire failed")` branch has fired. -/
structure OrchState where
  available : Nat
  in_flight : Nat
  dispatched : Nat
  closed : Bool
  panicked : Bool
deriving DecidableEq, Repr

/-- Transitions of `remote_scan` over a scan of `total_ports` ports with a
semaphore of capacity `c`: `dispatch` acquires a free permit of the open
semaphore and spawns the next port's task (`acquire_owned` returns a permit
only while the semaphore is open and one is free); `complete` is an in-flight
task finishing and dropping its `_permit`; `acquire_fail` is the `expect`
branch, which `acquire_owned` can reach only once the semaphore is closed. -/
inductive OrchStep (c total_ports : Nat) : OrchState → OrchState → Prop
  | dispatch (s : OrchState) (h1 : s.dispatched < total_ports)
      (h2 : 0 < s.available) (h3 : s.closed = false) :
      OrchStep c total_ports s
        ⟨s.available - 1, s.in_flight + 1, s.dispatched + 1, s.closed, s.panicked⟩
  | complete (s : OrchState) (h : 0 < s.in_flight) :
      OrchStep c total_ports s
        ⟨s.available + 1, s.in_flight - 1, s.dispatched, s.closed, s.panicked⟩
  | acquire_fail (s : OrchState) (h1 : s.dispatched < total_ports)
      (h2 : s.closed = true) :
      OrchStep c total_ports s
        ⟨s.available, s.in_flight, s.dispatched, s.closed, true⟩

/-- Initial orchestrator state: `Semaphore::new(concurrency)` is open with
`c` permits, nothing dispatched, nothing in flight. -/
def initOrch (c : Nat) : OrchState := ⟨c, 0, 0, false, false⟩

/-- States reachable by the orchestrator from the initial state. -/
inductive OrchReach (c total_ports : Nat) : OrchState → Prop
  | init : OrchReach c total_ports (initOrch c)
  | step {s s2 : OrchState} : OrchReach c total_ports s →
      OrchStep c total_ports s s2 → OrchReach c total_ports s2

/-- Options of the `portscan` command (`PortScanOpts`), after clap parsing;
every field is optional with the defaults applied in `run_port_scan`. -/
structure PortScanOpts where
  target : Option (List Char)
  port : Option (List Char)
  concurrency : Option Nat
  time_out : Option Nat
  output : Option (List Char)

/-- Defaulted values computed at the top of `run_port_scan` and passed to
`remote_scan`: target, port spec, concurrency and timeout. The `output`
option is bound to the unused `_output` in the source and is not part of the
request. -/
def scan_request (o : PortScanOpts) : List Char × List Char × Nat × Nat :=
  (o.target.getD "127.0.0.1".data, o.port.getD "80".data,
    o.concurrency.getD 100, o.time_out.getD 1000)

/-- `run_port_scan` followed by `remote_scan`, with the environment (the
arrival-ordered join results of the spawned tasks) as a parameter: parse the
defaulted port spec, then run the collection loop. -/
def run_port_scan (o : PortScanOpts) (arrivals : List JoinOutcome) :
    Except PortScanError ScanSummary :=
  match parse_port_range (scan_request o).2.1 with
  | .error e => .error e
  | .ok _ => collect arrivals initSummary

/-! Helper lemmas about `dropWhile`, `trimChars`, `splitOnce`, `parseU32`,
the collection loop and the orchestrator transition system. -/

theorem dropWhile_append_all {p : Char → Bool} (pre x : List Char)
    (h : ∀ c ∈ pre, p c = true) :
    List.dropWhile p (pre ++ x) = List.dropWhile p x := by
  induction pre with
  | nil => rfl
  | cons c cs ih =>
    rw [List.cons_append, List.dropWhile_cons, if_pos (h c (List.mem_cons_self c cs))]
    exact ih fun d hd => h d (List.mem_cons_of_mem c hd)

theorem dropWhile_append_ne_nil {p : Char → Bool} (s x : List Char)
    (h : List.dropWhile p s ≠ []) :
    List.dropWhile p (s ++ x) = List.dropWhile p s ++ x := by
  induction s with
  | nil => exact absurd rfl h
  | cons c cs ih =>
    by_cases hp : p c = true
    · have h2 : List.dropWhile p cs ≠ [] := by
        rwa [List.dropWhile_cons, if_pos hp] at h
      rw [List.cons_append, List.dropWhile_cons, if_pos hp, ih h2,
        List.dropWhile_cons, if_pos hp]
    · rw [List.cons_append, List.dropWhile_cons, if_neg hp,
        List.dropWhile_cons, if_neg hp, List.cons_append]

theorem trimChars_pad (s pre suf : List Char)
    (hpre : ∀ c ∈ pre, isWS c = true) (hsuf : ∀ c ∈ suf, isWS c = true) :
    trimChars (pre ++ (s ++ suf)) = trimChars s := by
  unfold trimChars
  rw [dropWhile_append_all pre (s ++ suf) hpre]
  by_cases h : List.dropWhile isWS s = []
  · have hsall : ∀ c ∈ s, isWS c = true := List.dropWhile_eq_nil_iff.mp h
    have h2 : List.dropWhile isWS (s ++ suf) = [] := by
      refine List.dropWhile_eq_nil_iff.mpr ?_
      intro c hc
      rcases List.mem_append.mp hc with h3 | h3
      · exact hsall c h3
      · exact hsuf c h3
    rw [h, h2]
  · rw [dropWhile_append_ne_nil s suf h, List.reverse_append,
      dropWhile_append_all suf.reverse _ fun c hc => hsuf c (List.mem_reverse.mp hc)]

theorem splitOnce_of_mem (c : Char) (t : List Char) (h : c ∈ t) :
    ∃ a b, splitOnce c t = some (a, b) ∧ t = a ++ c :: b ∧ c ∉ a := by
  induction t with
  | nil => cases h
  | cons x xs ih =>
    by_cases hx : x = c
    · subst hx
      exact ⟨[], xs, by simp [splitOnce], by simp, by simp⟩
    · have hmem : c ∈ xs := by
        rcases List.mem_cons.mp h with h1 | h1
        · exact absurd h1.symm hx
        · exact h1
      obtain ⟨a, b, hs, ht, hna⟩ := ih hmem
      refine ⟨x :: a, b, ?_, ?_, ?_⟩
      · simp [splitOnce, hx, hs]
      · rw [List.cons_append, ← ht]
      · intro hc
        rcases List.mem_cons.mp hc with h1 | h1
        · exact hx h1.symm
        · exact hna h1

theorem mem_dropWhile_of_mem {p : Char → Bool} {c : Char} (l : List Char)
    (hc : p c = false) (h : c ∈ l) : c ∈ List.dropWhile p l := by
  induction l with
  | nil => cases h
  | cons x xs ih =>
    rw [List.dropWhile_cons]
    by_cases hp : p x = true
    · rw [if_pos hp]
      rcases List.mem_cons.mp h with h1 | h1
      · subst h1
        rw [hc] at hp
        exact Bool.noConfusion hp
      · exact ih h1
    · rw [if_neg hp]
      exact h

theorem mem_trimChars {c : Char} (l : List Char) (hc : isWS c = false)
    (h : c ∈ l) : c ∈ trimChars l := by
  unfold trimChars
  rw [List.mem_reverse]
  exact mem_dropWhile_of_mem _ hc (List.mem_reverse.mpr (mem_dropWhile_of_mem _ hc h))

theorem count_dropWhile {p : Char → Bool} (c : Char) (l : List Char)
    (hc : p c = false) : (List.dropWhile p l).count c = l.count c := by
  induction l with
  | nil => rfl
  | cons x xs ih =>
    rw [List.dropWhile_cons]
    by_cases hp : p x = true
    · have hne : ¬((x == c) = true) := by
        intro habs
        have hxc : x = c := by simpa using habs
        rw [hxc, hc] at hp
        exact Bool.noConfusion hp
      rw [if_pos hp, List.count_cons, if_neg hne, Nat.add_zero]
      exact ih
    · rw [if_neg hp]

theorem count_trimChars (c : Char) (l : List Char) (hc : isWS c = false) :
    (trimChars l).count c = l.count c := by
  unfold trimChars
  rw [List.count_reverse, count_dropWhile c _ hc, List.count_reverse,
    count_dropWhile c _ hc]

theorem parseDigits_eq_none_of_dash (t : List Char) (h : '-' ∈ t) :
    parseDigits t = none := by
  have hall : t.all Char.isDigit = false := by
    cases hb : t.all Char.isDigit
    · rfl
    · exact absurd (List.all_eq_true.mp hb '-' h) (by decide)
  unfold parseDigits
  rw [if_neg fun hcond => absurd hcond.2 (by simp [hall])]

theorem parseU32_eq_none_of_dash (s : List Char) (h : '-' ∈ s) :
    parseU32 s = none := by
  unfold parseU32
  refine parseDigits_eq_none_of_dash _ ?_
  split
  · next hh =>
      cases s with
      | nil => cases h
      | cons x xs =>
        simp only [List.head?, Option.some.injEq] at hh
        subst hh
        rcases List.mem_cons.mp h with h1 | h1
        · exact absurd h1 (by decide)
        · simpa using h1
  · exact h

theorem collect_all_ok (rs : List JoinOutcome) (st : ScanSummary)
    (h : ∀ r ∈ rs, ∀ e, r ≠ JoinOutcome.failed e) :
    ∃ st2, collect rs st = .ok st2 ∧
      st2.total = st.total + rs.length ∧
      st2.open_ports.length + st2.closed_count
        = st.open_ports.length + st.closed_count + rs.length := by
  induction rs generalizing st with
  | nil => exact ⟨st, rfl, by simp, by simp⟩
  | cons r rs ih =>
    have hrest : ∀ r2 ∈ rs, ∀ e, r2 ≠ JoinOutcome.failed e :=
      fun r2 hr => h r2 (List.mem_cons_of_mem _ hr)
    cases r with
    | failed e => exact absurd rfl (h _ (List.mem_cons_self _ _) e)
    | joined p b =>
      cases b
      · obtain ⟨st2, hc, ht, ho⟩ :=
          ih ⟨st.open_ports, st.closed_count + 1, st.total + 1⟩ hrest
        refine ⟨st2, ?_, ?_, ?_⟩
        · simpa [collect, collect_step] using hc
        · simp at ht ⊢
          omega
        · simp at ho ⊢
          omega
      · obtain ⟨st2, hc, ht, ho⟩ :=
          ih ⟨st.open_ports ++ [p], st.closed_count, st.total + 1⟩ hrest
        refine ⟨st2, ?_, ?_, ?_⟩
        · simpa [collect, collect_step] using hc
        · simp at ht ⊢
          omega
        · simp at ho ⊢
          omega

theorem collect_first_failed (pre : List JoinOutcome) (e : List Char)
    (suf : List JoinOutcome) (st : ScanSummary)
    (h : ∀ r ∈ pre, ∀ m, r ≠ JoinOutcome.failed m) :
    collect (pre ++ JoinOutcome.failed e :: suf) st
      = .error (.JoinError e) := by
  induction pre generalizing st with
  | nil => rfl
  | cons r pre ih =>
    have hrest : ∀ r2 ∈ pre, ∀ m, r2 ≠ JoinOutcome.failed m :=
      fun r2 hr => h r2 (List.mem_cons_of_mem _ hr)
    cases r with
    | failed m => exact absurd rfl (h _ (List.mem_cons_self _ _) m)
    | joined p b =>
      cases b
      · rw [List.cons_append]
        simpa [collect, collect_step] using ih ⟨st.open_ports, st.closed_count + 1, st.total + 1⟩ hrest
      · rw [List.cons_append]
        simpa [collect, collect_step] using ih ⟨st.open_ports ++ [p], st.closed_count, st.total + 1⟩ hrest

theorem parse_port_range_split_eq (s a b : List Char)
    (hsp : splitOnce '-' (trimChars s) = some (a, b)) :
    parse_port_range s =
      match parseU32 (trimChars a) with
      | none => .error (.InvalidPort a)
      | some x =>
        match parseU32 (trimChars b) with
        | none => .error (.InvalidPort a)
        | some y =>
          if x = 0 ∨ y = 0 ∨ x > y then
            .error (.InvalidPortRange (trimChars s))
          else .ok (x, y) := by
  simp only [parse_port_range]
  rw [hsp]

theorem parse_port_range_single_eq (s : List Char)
    (hsp : splitOnce '-' (trimChars s) = none) :
    parse_port_range s =
      match parseU32 (trimChars s) with
      | none => .error (.InvalidPort (trimChars s))
      | some p => .ok (p, p) := by
  simp only [parse_port_range]
  rw [hsp]

theorem orch_inv (c total_ports : Nat) (s : OrchState)
    (h : OrchReach c total_ports s) :
    s.in_flight + s.available = c ∧ s.closed = false ∧ s.panicked = false := by
  induction h with
  | init => exact ⟨by simp [initOrch], rfl, rfl⟩
  | @step st st2 hr hstep ih =>
    obtain ⟨h1, h2, h3⟩ := ih
    cases hstep with
    | dispatch hd ha hcl =>
      refine ⟨?_, h2, h3⟩
      show st.in_flight + 1 + (st.available - 1) = c
      omega
    | complete hif =>
      refine ⟨?_, h2, h3⟩
      show st.in_flight - 1 + (st.available + 1) = c
      omega
    | acquire_fail hd hcl => exact absurd hcl (by simp [h2])

/-! Claim theorems. -/

/-- C1: in every state that `remote_scan`'s dispatch/complete loop can reach
from the initial semaphore of capacity `c`, the number of in-flight probe
tasks holding a permit never exceeds `c`, and permits are accounted exactly:
tasks in flight plus free permits always equal `c` (so the held count, a
natural number, never goes negative and a permit is returned only by a
completing task). -/
theorem orch_concurrency_bound (c total_ports : Nat) (s : OrchState)
    (h : OrchReach c total_ports s) :
    s.in_flight ≤ c ∧ s.in_flight + s.available = c := by
  obtain ⟨h1, _, _⟩ := orch_inv c total_ports s h
  exact ⟨by omega, h1⟩

/-- Witness for C1: the state after dispatching one probe with
`concurrency = 2` over 3 ports holds 1 ≤ 2 permits. -/
theorem orch_concurrency_bound_witness :
    (OrchState.mk 1 1 1 false false).in_flight ≤ 2 ∧
      (OrchState.mk 1 1 1 false false).in_flight
        + (OrchState.mk 1 1 1 false false).available = 2 := by
  have hstep : OrchStep 2 3 (initOrch 2) ⟨1, 1, 1, false, false⟩ :=
    OrchStep.dispatch (initOrch 2) (by decide) (by decide) rfl
  exact orch_concurrency_bound 2 3 _ (OrchReach.step OrchReach.init hstep)

/-- C10: in every reachable state of the dispatch loop the semaphore is
still open (the scan never closes it) and the `expect("semaphore acquire
failed")` branch has not fired; moreover with `concurrency ≥ 1`, whenever
the loop still has a port to dispatch either a permit is already free or a
`complete` step is enabled after which a permit is free, so permit
acquisition always eventually succeeds. -/
theorem orch_acquire_never_fails (c total_ports : Nat) (hc : 1 ≤ c)
    (s : OrchState) (h : OrchReach c total_ports s) :
    s.closed = false ∧ s.panicked = false ∧
      (0 < s.available ∨
        ∃ s2, OrchStep c total_ports s s2 ∧ 0 < s2.available) := by
  obtain ⟨h1, h2, h3⟩ := orch_inv c total_ports s h
  refine ⟨h2, h3, ?_⟩
  by_cases ha : 0 < s.available
  · exact Or.inl ha
  · have hif : 0 < s.in_flight := by omega
    exact Or.inr ⟨_, OrchStep.complete s hif, Nat.succ_pos _⟩

/-- Witness for C10: the initial state of a scan with `concurrency = 1`. -/
theorem orch_acquire_never_fails_witness :
    (initOrch 1).closed = false ∧ (initOrch 1).panicked = false ∧
      (0 < (initOrch 1).available ∨
        ∃ s2, OrchStep 1 4 (initOrch 1) s2 ∧ 0 < s2.available) :=
  orch_acquire_never_fails 1 4 (by decide) _ OrchReach.init

/-- C2: for a valid range `startPort ≤ endPort`, when every spawned task
joins normally (whatever each probe's open/closed outcome and whatever the
completion order, a permutation of the dispatched ports), the collection
loop succeeds with `total = endPort - startPort + 1` and
`open_ports.length + closed_count = total`, and the latter equation already
holds after every aggregated prefix of the arrivals. -/
theorem scan_summary_equations (startPort endPort : Nat) (net : Nat → Bool)
    (order : List Nat) (hperm : order.Perm (scan_ports startPort endPort))
    (hle : startPort ≤ endPort) :
    ∃ st, collect (order.map fun p => JoinOutcome.joined p (net p)) initSummary
        = .ok st ∧
      st.total = endPort - startPort + 1 ∧
      st.open_ports.length + st.closed_count = st.total ∧
      ∀ pre suf,
        order.map (fun p => JoinOutcome.joined p (net p)) = pre ++ suf →
        ∃ mid, collect pre initSummary = .ok mid ∧
          mid.open_ports.length + mid.closed_count = mid.total := by
  have hlen : order.length = endPort - startPort + 1 := by
    have hl := hperm.length_eq
    simp [scan_ports, List.length_range'] at hl
    omega
  have hok : ∀ r ∈ order.map (fun p => JoinOutcome.joined p (net p)),
      ∀ e, r ≠ JoinOutcome.failed e := by
    intro r hr e
    obtain ⟨p, _, rfl⟩ := List.mem_map.mp hr
    simp
  obtain ⟨st, hc, ht, ho⟩ := collect_all_ok _ initSummary hok
  simp [initSummary, List.length_map, hlen] at ht ho
  refine ⟨st, hc, ht, by omega, ?_⟩
  intro pre suf heq
  have hokpre : ∀ r ∈ pre, ∀ e, r ≠ JoinOutcome.failed e := by
    intro r hr e
    exact hok r (heq ▸ List.mem_append.mpr (Or.inl hr)) e
  obtain ⟨mid, hcp, htp, hop⟩ := collect_all_ok pre initSummary hokpre
  refine ⟨mid, hcp, ?_⟩
  simp [initSummary] at htp hop
  omega

/-- Witness for C2: two closed ports 1 and 2 completing in the order
`[2, 1]` yield `total = 2` with both equations holding. -/
theorem scan_summary_equations_witness :
    ∃ st, collect ([2, 1].map fun p => JoinOutcome.joined p false) initSummary
        = .ok st ∧
      st.total = 2 - 1 + 1 ∧
      st.open_ports.length + st.closed_count = st.total ∧
      ∀ pre suf, [2, 1].map (fun p => JoinOutcome.joined p false) = pre ++ suf →
        ∃ mid, collect pre initSummary = .ok mid ∧
          mid.open_ports.length + mid.closed_count = mid.total :=
  scan_summary_equations 1 2 (fun _ => false) [2, 1] (by decide) (by decide)

/-- C3: if some task fails to join (after any run of normally joined
results), the collection loop returns `JoinError` — the embedding of the
spec's `OrchestrationError::TaskFailure` — immediately: no `ScanSummary` is
produced however many probes already succeeded, and every result after the
failure is ignored (the outcome does not depend on the suffix). -/
theorem fail_fast_on_task_failure (pre suf : List JoinOutcome) (e : List Char)
    (h : ∀ r ∈ pre, ∀ m, r ≠ JoinOutcome.failed m) :
    collect (pre ++ JoinOutcome.failed e :: suf) initSummary
        = .error (.JoinError e) ∧
      ∀ suf2, collect (pre ++ JoinOutcome.failed e :: suf2) initSummary
        = collect (pre ++ JoinOutcome.failed e :: suf) initSummary := by
  refine ⟨collect_first_failed pre e suf initSummary h, ?_⟩
  intro suf2
  rw [collect_first_failed pre e suf initSummary h,
    collect_first_failed pre e suf2 initSummary h]

/-- Witness for C3: one successfully probed open port followed by a join
failure aborts the scan with `JoinError "boom"`. -/
theorem fail_fast_on_task_failure_witness :
    collect ([JoinOutcome.joined 80 true]
        ++ JoinOutcome.failed "boom".data :: [JoinOutcome.joined 81 false])
        initSummary = .error (.JoinError "boom".data) ∧
      ∀ suf2, collect ([JoinOutcome.joined 80 true]
          ++ JoinOutcome.failed "boom".data :: suf2) initSummary
        = collect ([JoinOutcome.joined 80 true]
            ++ JoinOutcome.failed "boom".data :: [JoinOutcome.joined 81 false])
            initSummary :=
  fail_fast_on_task_failure [JoinOutcome.joined 80 true]
    [JoinOutcome.joined 81 false] "boom".data
    (by
      intro r hr m
      rw [List.mem_singleton] at hr
      subst hr
      simp)

/-- C4: a probe task reports the port open exactly when the connection
attempt completed with an established stream before the deadline; an I/O
error (active refusal, unreachable host, or any other) and an elapsed
deadline all report closed; and for every race result the task yields a
plain `(port, is_open)` pair — no error outcome exists. -/
theorem probe_task_classification (port : Nat) (race : RaceResult) :
    (probe_task port race = (port, true)
        ↔ race = RaceResult.completed (Except.ok ())) ∧
    (∀ err, probe_task port (RaceResult.completed (Except.error err))
        = (port, false)) ∧
    probe_task port RaceResult.elapsed = (port, false) ∧
    (∃ b, probe_task port race = (port, b)) := by
  refine ⟨?_, fun err => rfl, rfl, ?_⟩
  · cases race with
    | completed r =>
      cases r with
      | ok u => cases u; simp [probe_task]
      | error e => simp [probe_task]
    | elapsed => simp [probe_task]
  · cases race with
    | completed r =>
      cases r with
      | ok u => exact ⟨true, rfl⟩
      | error e => exact ⟨false, rfl⟩
    | elapsed => exact ⟨false, rfl⟩

/-- Witness for C4: an elapsed deadline on port 80 reports closed. -/
theorem probe_task_classification_witness :
    (probe_task 80 RaceResult.elapsed = (80, true)
        ↔ RaceResult.elapsed = RaceResult.completed (Except.ok ())) ∧
    (∀ err, probe_task 80 (RaceResult.completed (Except.error err))
        = (80, false)) ∧
    probe_task 80 RaceResult.elapsed = (80, false) ∧
    (∃ b, probe_task 80 RaceResult.elapsed = (80, b)) :=
  probe_task_classification 80 RaceResult.elapsed

/-- C5 counterexample: the single-port branch of `parse_port_range` performs
no range validation, so the spec `"0"` succeeds with the range `(0, 0)`
instead of failing with `InvalidPortRange`, and neither branch enforces the
`65535` upper bound: `"70000-80000"` also succeeds. -/
theorem parse_port_range_unvalidated :
    parse_port_range "0".data = .ok (0, 0) ∧
    parse_port_range "70000-80000".data = .ok (70000, 80000) :=
  ⟨rfl, rfl⟩

/-- C5 (amended): whenever `parse_port_range` succeeds, `start ≤ end` holds;
on a two-endpoint spec (one the trimmed form splits at a `-`) additionally
`1 ≤ start` and `1 ≤ end`, and a zero endpoint or an inverted range is
rejected with `InvalidPortRange`; a single-port spec yields `start = end`
with no further validation (0 is accepted) and no `65535` upper bound is
enforced in either branch. -/
theorem parse_port_range_partial_validation :
    (∀ s startPort endPort,
      parse_port_range s = .ok (startPort, endPort) →
      startPort ≤ endPort ∧
        ((splitOnce '-' (trimChars s)).isSome → 1 ≤ startPort ∧ 1 ≤ endPort) ∧
        (splitOnce '-' (trimChars s) = none → startPort = endPort)) ∧
    (∀ s a b x y, splitOnce '-' (trimChars s) = some (a, b) →
      parseU32 (trimChars a) = some x → parseU32 (trimChars b) = some y →
      x = 0 ∨ y = 0 ∨ y < x →
      parse_port_range s = .error (.InvalidPortRange (trimChars s))) := by
  constructor
  · intro s startPort endPort h
    cases hsp : splitOnce '-' (trimChars s) with
    | some ab =>
      obtain ⟨a, b⟩ := ab
      rw [parse_port_range_split_eq s a b hsp] at h
      cases ha : parseU32 (trimChars a) with
      | none => rw [ha] at h; simp at h
      | some x =>
        rw [ha] at h
        cases hb : parseU32 (trimChars b) with
        | none => rw [hb] at h; simp at h
        | some y =>
          rw [hb] at h
          simp only at h
          split at h
          · simp at h
          · next hcond =>
            simp only [Except.ok.injEq, Prod.mk.injEq] at h
            obtain ⟨hx, hy⟩ := h
            subst hx; subst hy
            exact ⟨by omega, fun _ => ⟨by omega, by omega⟩,
              fun hn => Option.noConfusion hn⟩
    | none =>
      rw [parse_port_range_single_eq s hsp] at h
      cases hp : parseU32 (trimChars s) with
      | none => rw [hp] at h; simp at h
      | some p =>
        rw [hp] at h
        simp only [Except.ok.injEq, Prod.mk.injEq] at h
        obtain ⟨hx, hy⟩ := h
        subst hx; subst hy
        exact ⟨Nat.le_refl _, fun hs => by simp at hs, fun _ => rfl⟩
  · intro s a b x y hsp ha hb hcond
    rw [parse_port_range_split_eq s a b hsp, ha, hb]
    show (if x = 0 ∨ y = 0 ∨ x > y then
        Except.error (PortScanError.InvalidPortRange (trimChars s))
      else Except.ok (x, y)) = .error (.InvalidPortRange (trimChars s))
    rw [if_pos (show x = 0 ∨ y = 0 ∨ x > y from hcond)]

/-- Witness for the amended C5: a successful two-endpoint parse of
`"80-100"` satisfies the bounds, and the two-endpoint spec `"0-10"` is
rejected with `InvalidPortRange`. -/
theorem parse_port_range_partial_validation_witness :
    ((80 : Nat) ≤ 100 ∧
      ((splitOnce '-' (trimChars "80-100".data)).isSome → 1 ≤ 80 ∧ 1 ≤ 100) ∧
      (splitOnce '-' (trimChars "80-100".data) = none → 80 = 100)) ∧
    parse_port_range "0-10".data
      = .error (.InvalidPortRange (trimChars "0-10".data)) :=
  ⟨parse_port_range_partial_validation.1 "80-100".data 80 100 rfl,
    parse_port_range_partial_validation.2 "0-10".data "0".data "10".data 0 10
      rfl rfl rfl (Or.inl rfl)⟩

/-- C6 (code bug): when the second token of a two-endpoint spec fails to
parse, the `map_err` closure in the source captures `a`, the first token,
so the error carries `"80"` — not the failing token — for both `"80-xyz"`
and `"80-"`. -/
theorem second_token_error_carries_first_token :
    parse_port_range "80-xyz".data = .error (.InvalidPort "80".data) ∧
    parse_port_range "80-".data = .error (.InvalidPort "80".data) :=
  ⟨rfl, rfl⟩

/-- C7: the documented examples evaluate as specified — `"80"` parses to
`(80, 80)`, `"80-100"` to `(80, 100)`, `"0-10"` and `"100-50"` fail with
`InvalidPortRange`, `"abc"` and `"80-"` fail with `InvalidPort` — and
surrounding whitespace never changes the result: padding any spec with
whitespace on either side parses identically. -/
theorem parse_port_range_examples :
    parse_port_range "80".data = .ok (80, 80) ∧
    parse_port_range "80-100".data = .ok (80, 100) ∧
    parse_port_range "0-10".data = .error (.InvalidPortRange "0-10".data) ∧
    parse_port_range "100-50".data = .error (.InvalidPortRange "100-50".data) ∧
    (∃ t, parse_port_range "abc".data = .error (.InvalidPort t)) ∧
    (∃ t, parse_port_range "80-".data = .error (.InvalidPort t)) ∧
    (∀ s pre suf, (∀ c ∈ pre, isWS c = true) → (∀ c ∈ suf, isWS c = true) →
      parse_port_range (pre ++ (s ++ suf)) = parse_port_range s) := by
  refine ⟨rfl, rfl, rfl, rfl, ⟨_, rfl⟩, ⟨_, rfl⟩, ?_⟩
  intro s pre suf hpre hsuf
  simp only [parse_port_range]
  rw [trimChars_pad s pre suf hpre hsuf]

/-- Witness for C7: padding `"80"` with spaces parses identically. -/
theorem parse_port_range_examples_witness :
    parse_port_range (" ".data ++ ("80".data ++ "  ".data))
      = parse_port_range "80".data :=
  parse_port_range_examples.2.2.2.2.2.2 "80".data " ".data "  ".data
    (by decide) (by decide)

/-- C8: the `output` option is bound to the unused `_output` in
`run_port_scan` and is never consulted: two configurations differing only in
`output` produce the same defaulted scan request and the same scan outcome
in every environment. -/
theorem output_format_no_influence (o : PortScanOpts)
    (fmt1 fmt2 : Option (List Char)) (arrivals : List JoinOutcome) :
    scan_request { o with output := fmt1 } = scan_request { o with output := fmt2 } ∧
    run_port_scan { o with output := fmt1 } arrivals
      = run_port_scan { o with output := fmt2 } arrivals :=
  ⟨rfl, rfl⟩

/-- Witness for C8: defaulted options with output `json` and `csv` behave
identically on an empty environment. -/
theorem output_format_no_influence_witness :
    scan_request ⟨none, none, none, none, some "json".data⟩
        = scan_request ⟨none, none, none, none, some "csv".data⟩ ∧
    run_port_scan ⟨none, none, none, none, some "json".data⟩ []
        = run_port_scan ⟨none, none, none, none, some "csv".data⟩ [] :=
  output_format_no_influence ⟨none, none, none, none, none⟩
    (some "json".data) (some "csv".data) []

/-- C9: a spec whose trimmed form contains at least two `-` characters
splits at the first one, so the remainder still contains a `-`, cannot parse
as an unsigned integer, and `parse_port_range` fails with `InvalidPort`
(carrying the part before the first `-`). -/
theorem multi_dash_fails_invalid_port (s : List Char) (h : 2 ≤ s.count '-') :
    ∃ a b, splitOnce '-' (trimChars s) = some (a, b) ∧ '-' ∈ b ∧
      parseU32 (trimChars b) = none ∧
      parse_port_range s = .error (.InvalidPort a) := by
  have hcount : 2 ≤ (trimChars s).count '-' := by
    rw [count_trimChars '-' s (by decide)]
    exact h
  have hmem : '-' ∈ trimChars s := by
    by_contra hnm
    rw [List.count_eq_zero.mpr hnm] at hcount
    omega
  obtain ⟨a, b, hsp, heq, hna⟩ := splitOnce_of_mem '-' (trimChars s) hmem
  have hb : '-' ∈ b := by
    by_contra hnb
    rw [heq, List.count_append, List.count_cons,
      List.count_eq_zero.mpr hna, List.count_eq_zero.mpr hnb] at hcount
    simp at hcount
  have hpb : parseU32 (trimChars b) = none :=
    parseU32_eq_none_of_dash _ (mem_trimChars b (by decide) hb)
  refine ⟨a, b, hsp, hb, hpb, ?_⟩
  rw [parse_port_range_split_eq s a b hsp]
  cases ha : parseU32 (trimChars a) with
  | none => rfl
  | some x => rw [hpb]

/-- Witness for C9: the spec `"10-20-30"` contains two `-` and fails with
`InvalidPort "10"`. -/
theorem multi_dash_fails_invalid_port_witness :
    ∃ a b, splitOnce '-' (trimChars "10-20-30".data) = some (a, b) ∧ '-' ∈ b ∧
      parseU32 (trimChars b) = none ∧
      parse_port_range "10-20-30".data = .error (.InvalidPort a) :=
  multi_dash_fails_invalid_port "10-20-30".data (by decide)

end RToolkit
